import Mathlib

/-!
Verification development for the kpass credential-vault accessor
(`src/main.rs`).  The program's pure logic is shallowly embedded:

* passphrases and codes are lists of Unicode scalar values (`List Char`,
  matching Rust's `str::chars()`), the byte strings that `str::as_bytes`
  and `str::from_utf8` move between are `List Nat` together with an
  executable UTF-8 encoder/decoder faithful to Rust's semantics
  (shortest-form encodings only, surrogates and out-of-range values
  rejected);
* the cocoon symmetric codec is an external collaborator, modelled as a
  `Codec` record together with its assumed contract `CodecOK`;
* the filesystem state touched by the quick-unlock cache and by
  `save_db` is made explicit (the cache file's optional contents, and a
  record of the target/backup/staging files);
* the keepass entry tree is the nested inductive `Node`.
-/

namespace KPass

/-! ## UTF-8, faithful to Rust's `str::as_bytes` / `str::from_utf8` -/

/-- Encoding of one Unicode scalar value to UTF-8 bytes, as Rust's
`char::encode_utf8` produces them. -/
def utf8EncodeChar (c : Char) : List Nat :=
  if c.toNat < 0x80 then [c.toNat]
  else if c.toNat < 0x800 then
    [0xC0 + c.toNat / 64, 0x80 + c.toNat % 64]
  else if c.toNat < 0x10000 then
    [0xE0 + c.toNat / 4096, 0x80 + (c.toNat / 64) % 64, 0x80 + c.toNat % 64]
  else
    [0xF0 + c.toNat / 262144, 0x80 + (c.toNat / 4096) % 64,
      0x80 + (c.toNat / 64) % 64, 0x80 + c.toNat % 64]

/-- UTF-8 encoding of a sequence of scalar values (Rust `str::as_bytes`). -/
def utf8Encode : List Char → List Nat
  | [] => []
  | c :: t => utf8EncodeChar c ++ utf8Encode t

/-- Decode one UTF-8 sequence from the front of a byte string, returning
the scalar value and the remaining bytes.  After reassembling a
multi-byte sequence, the value-range checks reject exactly the overlong
forms, surrogates and values above U+10FFFF, so the accepted byte
strings coincide with Rust's `str::from_utf8`. -/
def utf8DecodeChar : List Nat → Option (Char × List Nat)
  | [] => none
  | b0 :: t =>
    if b0 < 0x80 then some (Char.ofNat b0, t)
    else if b0 < 0xC0 then none
    else if b0 < 0xE0 then
      match t with
      | b1 :: t1 =>
        if 0x80 ≤ b1 ∧ b1 < 0xC0 then
          if 0x80 ≤ (b0 - 0xC0) * 64 + (b1 - 0x80) then
            some (Char.ofNat ((b0 - 0xC0) * 64 + (b1 - 0x80)), t1)
          else none
        else none
      | [] => none
    else if b0 < 0xF0 then
      match t with
      | b1 :: b2 :: t2 =>
        if (0x80 ≤ b1 ∧ b1 < 0xC0) ∧ (0x80 ≤ b2 ∧ b2 < 0xC0) then
          if 0x800 ≤ (b0 - 0xE0) * 4096 + (b1 - 0x80) * 64 + (b2 - 0x80) ∧
              ((b0 - 0xE0) * 4096 + (b1 - 0x80) * 64 + (b2 - 0x80) < 0xD800 ∨
                0xE000 ≤ (b0 - 0xE0) * 4096 + (b1 - 0x80) * 64 + (b2 - 0x80)) then
            some (Char.ofNat ((b0 - 0xE0) * 4096 + (b1 - 0x80) * 64 + (b2 - 0x80)), t2)
          else none
        else none
      | _ => none
    else if b0 < 0xF8 then
      match t with
      | b1 :: b2 :: b3 :: t3 =>
        if (0x80 ≤ b1 ∧ b1 < 0xC0) ∧ (0x80 ≤ b2 ∧ b2 < 0xC0) ∧ (0x80 ≤ b3 ∧ b3 < 0xC0) then
          if 0x10000 ≤ (b0 - 0xF0) * 262144 + (b1 - 0x80) * 4096 + (b2 - 0x80) * 64 + (b3 - 0x80) ∧
              (b0 - 0xF0) * 262144 + (b1 - 0x80) * 4096 + (b2 - 0x80) * 64 + (b3 - 0x80)
                < 0x110000 then
            some
              (Char.ofNat
                ((b0 - 0xF0) * 262144 + (b1 - 0x80) * 4096 + (b2 - 0x80) * 64 + (b3 - 0x80)), t3)
          else none
        else none
      | _ => none
    else none

/-- Fuel-indexed iteration of `utf8DecodeChar`; the fuel only serves
termination and is immaterial once it reaches the byte count. -/
def utf8DecodeAux : Nat → List Nat → Option (List Char)
  | _, [] => some []
  | 0, _ :: _ => none
  | fuel + 1, b0 :: t =>
    match utf8DecodeChar (b0 :: t) with
    | some (c, rest) => (utf8DecodeAux fuel rest).map (fun cs => c :: cs)
    | none => none

/-- UTF-8 validation and decoding (Rust's `str::from_utf8` composed with
`chars()`). -/
def utf8Decode (l : List Nat) : Option (List Char) :=
  utf8DecodeAux l.length l

/-! ## Quick-unlock cache (`last_n_chars`, `cache_pass`, `try_load_pass`) -/

/-- Embedding of `last_n_chars` (src/main.rs:127-130).  The source runs
`s.char_indices().nth_back(n - 1).unwrap().0` and slices the string from
that byte index: `nth_back(n - 1)` yields the `n`-th scalar value from
the end exactly when `1 ≤ n ∧ n ≤ s.length`, and the byte slice from its
index is the suffix holding the last `n` scalar values.  The `unwrap`
panic (fewer than `n` scalar values, or `n = 0` underflowing `n - 1`) is
modelled as `none`.  Working on scalar values makes the result
independent of the byte encoding of the preceding characters by
construction. -/
def last_n_chars (s : List Char) (n : Nat) : Option (List Char) :=
  if 1 ≤ n ∧ n ≤ s.length then some (s.drop (s.length - n)) else none

/-- The quick-unlock code: the spec's `derive_code` is `last_n_chars`
with `n = 3`, as called by `cache_pass` (src/main.rs:163). -/
def derive_code (password : List Char) : Option (List Char) :=
  last_n_chars password 3

/-- The cocoon symmetric codec, an external collaborator (spec §2,
"SecretBlob codec").  `dump` encrypts a payload under a key
(`Cocoon::dump`), `parse` attempts decryption (`Cocoon::parse`); both
operate on byte strings. -/
structure Codec where
  dump : List Nat → List Nat → List Nat
  parse : List Nat → List Nat → Option (List Nat)

/-- The assumed contract of the codec: decryption under the dumping key
recovers the payload, and decryption under any other key fails (the
authenticated-encryption behaviour the fail-closed cache policy relies
on). -/
structure CodecOK (C : Codec) : Prop where
  parse_dump : ∀ key payload, C.parse key (C.dump key payload) = some payload
  parse_wrong_key : ∀ key key' payload, key' ≠ key → C.parse key' (C.dump key payload) = none

/-- Embedding of `cache_pass` (src/main.rs:162-170): derive the quick
code as the last 3 scalar values of the passphrase, encrypt the
passphrase's UTF-8 bytes under the code's UTF-8 bytes, and write the
blob to the cache path (the returned value is the new cache-file
contents).  The `unwrap` panic inside `last_n_chars` is `none`. -/
def cache_pass (C : Codec) (password : List Char) : Option (List Nat) :=
  (last_n_chars password 3).map
    (fun quick_pw => C.dump (utf8Encode quick_pw) (utf8Encode password))

/-- Result of one `try_load_pass` launch: the recovered passphrase, or
nothing, or a fatal propagated error (non-UTF-8 recovered bytes). -/
inductive LoadOutcome where
  | found (pass : List Char)
  | nothing
  | fatal
deriving DecidableEq

/-- Embedding of `try_load_pass` (src/main.rs:135-159).  The state is
the cache file's optional contents; the single prompted quick password
is `qpw`.  Absent cache: nothing, state unchanged.  Present cache:
`Cocoon::parse` under the supplied code; on success the payload must
decode as UTF-8 (else the error propagates fatally); on decryption
failure the cache file is removed and nothing is returned — the
function prompts exactly once and never loops. -/
def try_load_pass (C : Codec) (cache : Option (List Nat)) (qpw : List Char) :
    LoadOutcome × Option (List Nat) :=
  match cache with
  | none => (LoadOutcome.nothing, none)
  | some blob =>
    match C.parse (utf8Encode qpw) blob with
    | some payload =>
      match utf8Decode payload with
      | some pass => (LoadOutcome.found pass, some blob)
      | none => (LoadOutcome.fatal, some blob)
    | none => (LoadOutcome.nothing, none)

/-- A concrete codec satisfying `CodecOK`, used to instantiate the
assumed collaborator contract in witnesses: the blob records the key
(length-prefixed) followed by the payload, and parsing checks the key. -/
def demoCodec : Codec where
  dump key payload := key.length :: (key ++ payload)
  parse key blob :=
    match blob with
    | [] => none
    | n :: rest =>
      if n = key.length ∧ rest.take key.length = key then some (rest.drop key.length)
      else none

/-! ## Entries, fields and `view_entry` -/

/-- Embedding of keepass `Value` (the field-value type): `Bytes`,
`Unprotected` text, or `Protected` secret bytes. -/
inductive Value where
  | bytes (bs : List Nat)
  | unprotected (s : String)
  | protected_ (bs : List Nat)
deriving DecidableEq

/-- Embedding of a keepass `Entry`: the 128-bit identifier (used only
for equality, so carried as a `Nat`) and the field map, represented as
an association list with the usual replace-on-insert semantics. -/
structure KEntry where
  uuid : Nat
  fields : List (String × Value)
deriving DecidableEq

/-- Field lookup (`entry.fields.get(key)`). -/
def get_field (e : KEntry) (key : String) : Option Value :=
  (e.fields.find? (fun kv => kv.1 == key)).map (fun kv => kv.2)

/-- Field insertion (`entry.fields.insert(key, value)`): replaces any
previous binding of the key. -/
def insert_field (e : KEntry) (key : String) (v : Value) : KEntry :=
  { e with fields := (key, v) :: e.fields.filter (fun kv => kv.1 != key) }

/-- Modelled from the keepass crate (external collaborator): `Entry::get`
returns unprotected text directly, UTF-8-decodes protected bytes, and
hides `Bytes` values. -/
def entry_get (e : KEntry) (key : String) : Option String :=
  match get_field e key with
  | some (Value.unprotected s) => some s
  | some (Value.protected_ bs) => (utf8Decode bs).map List.asString
  | some (Value.bytes _) => none
  | none => none

/-- `Entry::get_username` (keepass), as used by `Entry::username`
(src/main.rs:34-36). -/
def get_username (e : KEntry) : Option String :=
  entry_get e "UserName"

/-- `Entry::get_url` (keepass), as used by `Entry::url`
(src/main.rs:38-40). -/
def get_url (e : KEntry) : Option String :=
  entry_get e "URL"

/-- `Entry::get_password` (keepass), as used by `Entry::password`
(src/main.rs:30-32). -/
def get_password (e : KEntry) : Option String :=
  entry_get e "Password"

/-- Embedding of `Entry::notes` (src/main.rs:42-48): the `Notes` field,
read directly when unprotected and UTF-8-decoded when protected. -/
def entry_notes (e : KEntry) : Option String :=
  match get_field e "Notes" with
  | some (Value.unprotected s) => some s
  | some (Value.protected_ bs) => (utf8Decode bs).map List.asString
  | _ => none

/-- Embedding of `EditEntry::set_notes` (src/main.rs:78-89) with the
editor's resulting text as argument: the notes are stored as a
`Protected` value holding the text's UTF-8 bytes. -/
def set_notes (e : KEntry) (notes : String) : KEntry :=
  insert_field e "Notes" (Value.protected_ (utf8Encode notes.data))

/-- Embedding of `view_entry` (src/main.rs:305-328): the first component
is the sequence of values written to standard output (username line, url
line, the notes block, and the clipboard notice), the second is the
secret pushed to the clipboard.  The password value itself is only ever
passed to the clipboard call, never printed. -/
def view_entry (e : KEntry) : List String × Option String :=
  let userLines := match get_username e with
    | some u => ["> Username: " ++ u]
    | none => []
  let urlLines := match get_url e with
    | some u => ["> Url: " ++ u]
    | none => []
  let noteLines := match entry_notes e with
    | some n => ["-- Notes ----------------", n, "-------------------------"]
    | none => []
  let clip := get_password e
  let pwLines := match clip with
    | some _ => ["> Copied to clipboard!"]
    | none => []
  (userLines ++ urlLines ++ noteLines ++ pwLines, clip)

/-! ## The entry tree, `_find_entry_mut` and the `pick_entry` flattening -/

/-- Embedding of keepass `Node`: a child of a group is either a subgroup
(carried as its ordered list of children — no other group data is
consulted by this program) or an entry. -/
inductive Node where
  | group (children : List Node)
  | entry (e : KEntry)

/-- Embedding of `_find_entry_mut` (src/main.rs:256-272) on a group's
child list: walk the children in order; recurse into a subgroup and
return its hit if any, otherwise continue with the remaining siblings;
compare an entry's identifier with the query.  (The Rust function
returns a mutable borrow; the model returns the found entry's value.) -/
def _find_entry_mut (uuid : Nat) : List Node → Option KEntry
  | [] => none
  | Node.group g :: rest =>
    match _find_entry_mut uuid g with
    | some e => some e
    | none => _find_entry_mut uuid rest
  | Node.entry e :: rest =>
    if e.uuid = uuid then some e else _find_entry_mut uuid rest

/-- Embedding of `get_entry_mut` (src/main.rs:253-255): search from the
database root's children. -/
def get_entry_mut (root : List Node) (uuid : Nat) : Option KEntry :=
  _find_entry_mut uuid root

/-- The spec's `list_entries`: depth-first, insertion-order flattening
of a tree's entries, subgroups traversed in place and not yielded. -/
def list_entries : List Node → List KEntry
  | [] => []
  | Node.group g :: rest => list_entries g ++ list_entries rest
  | Node.entry e :: rest => e :: list_entries rest

/-- Modelled from the spec: the keepass `NodeIter` over `db.root`
(used by `pick_entry`, src/main.rs:290-296) is not part of this
repository's source; per spec §4.4 it yields the tree's nodes
depth-first in insertion order, subgroups being visited (and yielded)
before their remaining siblings. -/
def node_seq : List Node → List Node
  | [] => []
  | Node.group g :: rest => Node.group g :: (node_seq g ++ node_seq rest)
  | Node.entry e :: rest => Node.entry e :: node_seq rest

/-- Embedding of the flattening in `pick_entry` (src/main.rs:288-303):
iterate the tree's nodes and keep the entries, dropping the groups
(`filter_map` over `NodeRef`). -/
def pick_entries (root : List Node) : List KEntry :=
  (node_seq root).filterMap
    (fun n => match n with
      | Node.group _ => none
      | Node.entry e => some e)

/-- Independent count of the entries satisfying a predicate in a tree,
used to state that the flattening yields each entry exactly once. -/
def count_entries (p : KEntry → Bool) : List Node → Nat
  | [] => 0
  | Node.group g :: rest => count_entries p g + count_entries p rest
  | Node.entry e :: rest => (if p e then 1 else 0) + count_entries p rest

/-- Demo entries and tree G1{e1, G2{e2}}, e3 from the spec's flattening
example. -/
def demoE1 : KEntry := ⟨1, [("Title", Value.unprotected "e1")]⟩

/-- Second demo entry, nested in the inner group. -/
def demoE2 : KEntry := ⟨2, [("Title", Value.unprotected "e2")]⟩

/-- Third demo entry, at root level. -/
def demoE3 : KEntry := ⟨3, [("Title", Value.unprotected "e3")]⟩

/-- The demo tree's root children: G1{e1, G2{e2}} followed by e3. -/
def demoRoot : List Node :=
  [Node.group [Node.entry demoE1, Node.group [Node.entry demoE2]], Node.entry demoE3]

/-! ## Transactional save (`save_db`) -/

/-- The filesystem locations touched by `save_db`: the target vault
file, its `.backup.kdbx` sibling, and the fixed staging file
`/tmp/.pass.kdbx`; `none` means the file does not exist. -/
structure FsState where
  target : Option (List Nat)
  backup : Option (List Nat)
  staging : Option (List Nat)
deriving DecidableEq

/-- Embedding of `save_db` (src/main.rs:274-286).  `ser` is the
serialized container produced by `db.save` (`none` models a
serialization error).  Step 1 copies the target to the backup sibling;
its failure (no target to read) aborts with nothing changed.  Step 2
truncates the staging file (`File::create`) and serializes into it; a
serialization failure aborts after the truncation.  Step 3 copies the
fully-written staging file over the target.  The returned flag is
success. -/
def save_db (fs : FsState) (ser : Option (List Nat)) : Bool × FsState :=
  match fs.target with
  | none => (false, fs)
  | some tbytes =>
    let fs1 : FsState := { fs with backup := some tbytes }
    let fs2 : FsState := { fs1 with staging := some [] }
    match ser with
    | none => (false, fs2)
    | some bs =>
      let fs3 : FsState := { fs2 with staging := some bs }
      (true, { fs3 with target := some bs })

/-! ## Startup unlock (cache branch and full-passphrase loop) -/

/-- Outcome of the unlock phase of `main` (src/main.rs:181-208):
unlocked with a passphrase, a fatal process termination, or still
prompting when the modelled input stream ran out (the loop itself is
unbounded).  Each outcome carries the lines printed on the way. -/
inductive UnlockResult where
  | unlocked (pass : List Char) (log : List String)
  | fatal (log : List String)
  | pending (log : List String)
deriving DecidableEq

/-- The diagnostic printed on each failed full-passphrase attempt
(src/main.rs:203). -/
def err_line : String :=
  "! Failed to open database. Wrong password?"

/-- Prepend printed lines to an unlock outcome's log. -/
def with_log (lines : List String) : UnlockResult → UnlockResult
  | UnlockResult.unlocked p log => UnlockResult.unlocked p (lines ++ log)
  | UnlockResult.fatal log => UnlockResult.fatal (lines ++ log)
  | UnlockResult.pending log => UnlockResult.pending (lines ++ log)

/-- Embedding of the full-passphrase loop of `main` (src/main.rs:187-207).
`openDb` is the Vault Store collaborator: `Except.ok` when the key
opens the container, `Except.error` with the diagnostic otherwise.
Each iteration prompts for the next passphrase of the stream; a failed
open prints the two diagnostic lines and loops; a successful open
caches the passphrase (whose `last_n_chars` panic is the fatal case)
and unlocks. -/
def passphrase_loop (C : Codec) (openDb : List Char → Except String Unit)
    (cache : Option (List Nat)) : List (List Char) → UnlockResult × Option (List Nat)
  | [] => (UnlockResult.pending [], cache)
  | p :: rest =>
    match openDb p with
    | Except.ok _ =>
      match cache_pass C p with
      | some blob => (UnlockResult.unlocked p [], some blob)
      | none => (UnlockResult.fatal [], cache)
    | Except.error e =>
      let r := passphrase_loop C openDb cache rest
      (with_log [err_line, ">   " ++ e] r.1, r.2)

/-- Embedding of the unlock phase of `main` (src/main.rs:181-208):
first `try_load_pass`; a cache hit opens the vault with the recovered
passphrase and `expect`s success — an open failure on the cache-derived
key is a panic, modelled as `fatal`, with no retry and no prompt
consumed; no cache hit falls back to the full-passphrase loop; a fatal
cache read propagates. -/
def unlock_main (C : Codec) (openDb : List Char → Except String Unit)
    (cache : Option (List Nat)) (qpw : List Char) (prompts : List (List Char)) :
    UnlockResult × Option (List Nat) :=
  match try_load_pass C cache qpw with
  | (LoadOutcome.found p, c') =>
    match openDb p with
    | Except.ok _ => (UnlockResult.unlocked p [], c')
    | Except.error _ => (UnlockResult.fatal [], c')
  | (LoadOutcome.nothing, c') => passphrase_loop C openDb c' prompts
  | (LoadOutcome.fatal, c') => (UnlockResult.fatal [], c')

/-- The per-attempt diagnostic log of a run of failed opens. -/
def err_log (err : List Char → String) : List (List Char) → List String
  | [] => []
  | w :: ws => err_line :: (">   " ++ err w) :: err_log err ws

/-- Every `Char` carries a valid Unicode scalar value. -/
theorem char_toNat_valid (c : Char) :
    c.toNat < 0xD800 ∨ (0xDFFF < c.toNat ∧ c.toNat < 0x110000) :=
  c.valid

/-- A single scalar value encodes to at least one byte. -/
theorem utf8EncodeChar_length_pos (c : Char) : 1 ≤ (utf8EncodeChar c).length := by
  rw [utf8EncodeChar]
  split_ifs <;> simp

/-- Decoding one character off the front of an encoded character
recovers that character and leaves the rest untouched. -/
theorem utf8DecodeChar_utf8EncodeChar (c : Char) (r : List Nat) :
    utf8DecodeChar (utf8EncodeChar c ++ r) = some (c, r) := by
  have hval := char_toNat_valid c
  by_cases h1 : c.toNat < 0x80
  · rw [show utf8EncodeChar c = [c.toNat] from by rw [utf8EncodeChar, if_pos h1]]
    show utf8DecodeChar (c.toNat :: r) = some (c, r)
    simp only [utf8DecodeChar.eq_def]
    rw [if_pos h1, Char.ofNat_toNat]
  · by_cases h2 : c.toNat < 0x800
    · rw [show utf8EncodeChar c = [0xC0 + c.toNat / 64, 0x80 + c.toNat % 64] from by
        rw [utf8EncodeChar, if_neg h1, if_pos h2]]
      show utf8DecodeChar ((0xC0 + c.toNat / 64) :: (0x80 + c.toNat % 64) :: r) = some (c, r)
      simp only [utf8DecodeChar.eq_def]
      rw [if_neg (by omega), if_neg (by omega), if_pos (by omega),
        if_pos (by omega), if_pos (by omega)]
      have hv : (0xC0 + c.toNat / 64 - 0xC0) * 64 + (0x80 + c.toNat % 64 - 0x80) = c.toNat := by
        omega
      rw [hv, Char.ofNat_toNat]
    · by_cases h3 : c.toNat < 0x10000
      · rw [show utf8EncodeChar c =
            [0xE0 + c.toNat / 4096, 0x80 + (c.toNat / 64) % 64, 0x80 + c.toNat % 64] from by
          rw [utf8EncodeChar, if_neg h1, if_neg h2, if_pos h3]]
        show utf8DecodeChar ((0xE0 + c.toNat / 4096) :: (0x80 + (c.toNat / 64) % 64) ::
          (0x80 + c.toNat % 64) :: r) = some (c, r)
        simp only [utf8DecodeChar.eq_def]
        rw [if_neg (by omega), if_neg (by omega), if_neg (by omega), if_pos (by omega),
          if_pos (by omega)]
        have hv : (0xE0 + c.toNat / 4096 - 0xE0) * 4096 + (0x80 + (c.toNat / 64) % 64 - 0x80) * 64
            + (0x80 + c.toNat % 64 - 0x80) = c.toNat := by
          omega
        rw [hv, if_pos (by omega), Char.ofNat_toNat]
      · rw [show utf8EncodeChar c =
            [0xF0 + c.toNat / 262144, 0x80 + (c.toNat / 4096) % 64, 0x80 + (c.toNat / 64) % 64,
              0x80 + c.toNat % 64] from by
          rw [utf8EncodeChar, if_neg h1, if_neg h2, if_neg h3]]
        show utf8DecodeChar ((0xF0 + c.toNat / 262144) :: (0x80 + (c.toNat / 4096) % 64) ::
          (0x80 + (c.toNat / 64) % 64) :: (0x80 + c.toNat % 64) :: r) = some (c, r)
        simp only [utf8DecodeChar.eq_def]
        rw [if_neg (by omega), if_neg (by omega), if_neg (by omega), if_neg (by omega),
          if_pos (by omega), if_pos (by omega)]
        have hv : (0xF0 + c.toNat / 262144 - 0xF0) * 262144
            + (0x80 + (c.toNat / 4096) % 64 - 0x80) * 4096
            + (0x80 + (c.toNat / 64) % 64 - 0x80) * 64 + (0x80 + c.toNat % 64 - 0x80)
            = c.toNat := by
          omega
        rw [hv, if_pos (by omega), Char.ofNat_toNat]

/-- With enough fuel, the fuel-indexed decoder inverts the encoder. -/
theorem utf8DecodeAux_utf8Encode (s : List Char) :
    ∀ fuel : Nat, (utf8Encode s).length ≤ fuel → utf8DecodeAux fuel (utf8Encode s) = some s := by
  induction s with
  | nil =>
    intro fuel _
    cases fuel <;> rfl
  | cons c t ih =>
    intro fuel hfuel
    have hlen : (utf8Encode (c :: t)).length =
        (utf8EncodeChar c).length + (utf8Encode t).length := by
      rw [show utf8Encode (c :: t) = utf8EncodeChar c ++ utf8Encode t from rfl,
        List.length_append]
    have hpos := utf8EncodeChar_length_pos c
    obtain ⟨b0, t0, heq⟩ : ∃ b0 t0, utf8Encode (c :: t) = b0 :: t0 := by
      cases hc : utf8Encode (c :: t) with
      | nil => rw [hc] at hlen; simp at hlen; omega
      | cons x xs => exact ⟨x, xs, rfl⟩
    obtain ⟨f, rfl⟩ : ∃ f, fuel = f + 1 := by
      cases fuel with
      | zero =>
        rw [heq] at hfuel
        simp at hfuel
      | succ f => exact ⟨f, rfl⟩
    rw [heq, utf8DecodeAux, ← heq,
      show utf8Encode (c :: t) = utf8EncodeChar c ++ utf8Encode t from rfl,
      utf8DecodeChar_utf8EncodeChar]
    show Option.map (fun cs => c :: cs) (utf8DecodeAux f (utf8Encode t)) = some (c :: t)
    have hle : (utf8Encode t).length ≤ f := by
      rw [heq] at hfuel
      simp only [List.length_cons] at hfuel
      have : t0.length + 1 = (utf8EncodeChar c).length + (utf8Encode t).length := by
        rw [← hlen, heq, List.length_cons]
      omega
    rw [ih f hle]
    rfl

/-- Decoding inverts encoding: Rust's `from_utf8` on the bytes of a
string recovers exactly that string's scalar values. -/
theorem utf8Decode_utf8Encode (s : List Char) : utf8Decode (utf8Encode s) = some s :=
  utf8DecodeAux_utf8Encode s (utf8Encode s).length (Nat.le_refl _)

/-- UTF-8 encoding is injective on scalar-value sequences. -/
theorem utf8Encode_injective {a b : List Char} (h : utf8Encode a = utf8Encode b) : a = b := by
  have ha := utf8Decode_utf8Encode a
  rw [h, utf8Decode_utf8Encode b] at ha
  exact (Option.some_inj.mp ha).symm

/-- The demo codec satisfies the assumed codec contract. -/
theorem demoCodec_ok : CodecOK demoCodec := by
  constructor
  · intro key payload
    simp [demoCodec, List.take_left, List.drop_left]
  · intro key key' payload hne
    simp only [demoCodec]
    rw [if_neg]
    rintro ⟨hlen, htake⟩
    apply hne
    rw [← htake]
    exact List.take_left' hlen

/-- A filter whose predicate is implied by the search predicate does not
change the result of `find?`: helper for field-map lookups. -/
theorem find?_filter_of {α : Type} (p q : α → Bool) (l : List α)
    (h : ∀ x, p x = true → q x = true) :
    (l.filter q).find? p = l.find? p := by
  induction l with
  | nil => rfl
  | cons a l ih =>
    by_cases hq : q a = true
    · rw [List.filter_cons_of_pos hq]
      by_cases hp : p a = true
      · rw [List.find?_cons_of_pos _ hp, List.find?_cons_of_pos _ hp]
      · rw [List.find?_cons_of_neg _ hp, List.find?_cons_of_neg _ hp, ih]
    · rw [List.filter_cons_of_neg hq]
      have hp : ¬p a = true := fun hpa => hq (h a hpa)
      rw [List.find?_cons_of_neg _ hp, ih]

/-- Lookup after replace-on-insert: the inserted key reads back the new
value, every other key is unaffected. -/
theorem get_field_insert (e : KEntry) (k k' : String) (v : Value) :
    get_field (insert_field e k v) k' = if k' = k then some v else get_field e k' := by
  by_cases h : k' = k
  · subst h
    rw [if_pos rfl]
    unfold get_field insert_field
    rw [List.find?_cons_of_pos _ (by simp)]
    rfl
  · rw [if_neg h]
    unfold get_field insert_field
    rw [List.find?_cons_of_neg _ (by simp; exact fun hkk => h hkk.symm)]
    rw [find?_filter_of _ _ _ ?_]
    intro kv hkv
    simp only [beq_iff_eq] at hkv
    simp only [bne_iff_ne, ne_eq, hkv]
    exact h

/-- A string is recovered from its own character data. -/
theorem asString_data (s : String) : List.asString s.data = s := rfl

/-- The tree search agrees with a `find?` over the depth-first
flattening: shared helper for the tree claims. -/
theorem find_entry_eq_find? (uuid : Nat) (ns : List Node) :
    _find_entry_mut uuid ns = (list_entries ns).find? (fun e => e.uuid == uuid) := by
  induction ns using _find_entry_mut.induct uuid with
  | case1 => simp [_find_entry_mut, list_entries]
  | case2 g rest e h ih =>
    simp only [_find_entry_mut, list_entries, h, List.find?_append, ← ih]
    rfl
  | case3 g rest h ih1 ih2 =>
    simp only [_find_entry_mut, list_entries, h, List.find?_append, ← ih1, ih2]
    rfl
  | case4 e rest h =>
    simp only [_find_entry_mut, list_entries, if_pos h]
    rw [List.find?_cons_of_pos _ (by simp [h])]
  | case5 e rest h ih =>
    simp only [_find_entry_mut, list_entries, if_neg h, ih]
    rw [List.find?_cons_of_neg _ (by simp [h])]

/-- The `pick_entry` flattening (filter over the node sequence) agrees
with the direct entry flattening: shared helper for the tree claims. -/
theorem pick_entries_eq_list_entries (ns : List Node) :
    pick_entries ns = list_entries ns := by
  rw [pick_entries]
  induction ns using node_seq.induct with
  | case1 => simp [node_seq, list_entries]
  | case2 g rest ih1 ih2 =>
    simp only [node_seq, list_entries, List.filterMap_cons, List.filterMap_append,
      ih1, ih2]
  | case3 e rest ih =>
    simp only [node_seq, list_entries, List.filterMap_cons, ih]

/-- The depth-first flattening counts entries exactly as the tree does:
shared helper for C8. -/
theorem list_entries_countP (p : KEntry → Bool) (ns : List Node) :
    (list_entries ns).countP p = count_entries p ns := by
  induction ns using count_entries.induct p with
  | case1 => simp [list_entries, count_entries]
  | case2 g rest ih1 ih2 =>
    simp only [list_entries, List.countP_append, ih1, ih2, count_entries]
  | case3 e rest ih =>
    simp only [list_entries, List.countP_cons, ih, count_entries]
    omega

/-! ## Claims about the entry tree -/

/-- C7: `_find_entry_mut` is the depth-first search in insertion order —
it recurses into a child group before that group's remaining siblings
and equals `find?` over the depth-first flattening, hence returns the
first entry whose identifier matches; and it returns nothing exactly
when no reachable entry carries the queried identifier. -/
theorem find_entry_depth_first (uuid : Nat) (ns : List Node) :
    _find_entry_mut uuid ns = (list_entries ns).find? (fun e => e.uuid == uuid) ∧
    ((∀ e ∈ list_entries ns, e.uuid ≠ uuid) → _find_entry_mut uuid ns = none) := by
  refine ⟨find_entry_eq_find? uuid ns, fun h => ?_⟩
  rw [find_entry_eq_find? uuid ns, List.find?_eq_none]
  intro e he
  simp only [beq_iff_eq]
  exact h e he

/-- Witness for C7: in the demo tree no entry has identifier 99, and the
search returns nothing. -/
theorem find_entry_depth_first_witness :
    _find_entry_mut 99 demoRoot = none :=
  (find_entry_depth_first 99 demoRoot).2
    (by simp [list_entries, demoRoot, demoE1, demoE2, demoE3])

/-- C8: the `pick_entry` flattening yields exactly the depth-first,
insertion-order entry sequence of the tree and no groups (it equals
`list_entries`, whose elements are entries only), each entry of the tree
exactly once (the count of any entry predicate matches the tree's own
count); on the demo tree G1 containing e1 and G2 containing e2, with e3 at
root level, it yields e1, e2, e3 in that order. -/
theorem pick_entries_flattening :
    (∀ ns : List Node, pick_entries ns = list_entries ns ∧
      ∀ p : KEntry → Bool, (pick_entries ns).countP p = count_entries p ns) ∧
    pick_entries demoRoot = [demoE1, demoE2, demoE3] := by
  refine ⟨fun ns => ⟨pick_entries_eq_list_entries ns, fun p => ?_⟩, ?_⟩
  · rw [pick_entries_eq_list_entries ns, list_entries_countP]
  · simp [pick_entries, node_seq, demoRoot]

/-- C10: every entry yielded by the `pick_entry` flattening is found
again by `get_entry_mut` queried with that entry's identifier, so the
`expect` after picking an entry in the Edit branch cannot fail. -/
theorem picked_entry_found (root : List Node) (e : KEntry)
    (he : e ∈ pick_entries root) :
    ∃ e' : KEntry, get_entry_mut root e.uuid = some e' ∧ e'.uuid = e.uuid := by
  rw [pick_entries_eq_list_entries] at he
  have hsome : ((list_entries root).find? (fun x => x.uuid == e.uuid)).isSome := by
    rw [List.find?_isSome]
    exact ⟨e, he, by simp⟩
  obtain ⟨e', he'⟩ := Option.isSome_iff_exists.mp hsome
  refine ⟨e', ?_, ?_⟩
  · rw [get_entry_mut, find_entry_eq_find?, he']
  · have := List.find?_some he'
    simpa using this

/-- Witness for C10: the nested entry e2 of the demo tree is yielded by
the flattening and found again by identifier. -/
theorem picked_entry_found_witness :
    ∃ e' : KEntry, get_entry_mut demoRoot demoE2.uuid = some e' ∧ e'.uuid = demoE2.uuid :=
  picked_entry_found demoRoot demoE2
    (by simp [pick_entries, node_seq, demoRoot, demoE1, demoE2, demoE3])

/-! ## Claims about the quick-unlock cache -/

/-- C4: for all passphrases, `derive_code` (that is, `last_n_chars` with
`n = 3`) deterministically returns exactly the last 3 Unicode scalar
values of the passphrase as a suffix — independent of the byte encoding
of the preceding characters, since it is a function of the scalar-value
sequence — and fails when the passphrase has fewer than 3 scalar
values. -/
theorem derive_code_last_three (s : List Char) :
    (3 ≤ s.length →
      derive_code s = some (s.drop (s.length - 3)) ∧
        (s.drop (s.length - 3)).length = 3 ∧
        s.take (s.length - 3) ++ s.drop (s.length - 3) = s) ∧
    (s.length < 3 → derive_code s = none) := by
  constructor
  · intro h
    refine ⟨?_, ?_, List.take_append_drop _ _⟩
    · rw [derive_code, last_n_chars, if_pos ⟨by omega, h⟩]
    · rw [List.length_drop]
      omega
  · intro h
    rw [derive_code, last_n_chars, if_neg (by omega)]

/-- Witness for C4 at the passphrases "abcd" (succeeds on the suffix) and
"ab" (fails). -/
theorem derive_code_last_three_witness :
    derive_code "abcd".data = some ("abcd".data.drop ("abcd".data.length - 3)) ∧
    derive_code "ab".data = none :=
  ⟨((derive_code_last_three "abcd".data).1 (by decide)).1,
    (derive_code_last_three "ab".data).2 (by decide)⟩

/-- C9: for a passphrase of exactly 3 scalar values, the derived code is
the passphrase itself, so the quick-unlock code `cache_pass` encrypts
under is the entire master passphrase. -/
theorem derive_code_whole_pass_when_len3 (C : Codec) (P : List Char) (h : P.length = 3) :
    derive_code P = some P ∧
    cache_pass C P = some (C.dump (utf8Encode P) (utf8Encode P)) := by
  have hd : derive_code P = some P := by
    rw [derive_code, last_n_chars, if_pos ⟨by omega, by omega⟩,
      show P.length - 3 = 0 from by omega, List.drop_zero]
  refine ⟨hd, ?_⟩
  rw [cache_pass, show last_n_chars P 3 = some P from hd, Option.map_some']

/-- Witness for C9 at the 3-character passphrase "xyz". -/
theorem derive_code_whole_pass_when_len3_witness :
    derive_code "xyz".data = some "xyz".data ∧
    cache_pass demoCodec "xyz".data =
      some (demoCodec.dump (utf8Encode "xyz".data) (utf8Encode "xyz".data)) :=
  derive_code_whole_pass_when_len3 demoCodec "xyz".data (by decide)

/-- C1: with a stored cache created from passphrase `P`, supplying any
code different from the derived code returns nothing and deletes the
cache file; the function takes a single attempt (it is not a loop), and
any subsequent attempt finds no cache and also returns nothing. -/
theorem try_load_pass_wrong_code_destroys (C : Codec) (hC : CodecOK C)
    (P code₀ qpw : List Char) (blob : List Nat)
    (hcode : derive_code P = some code₀) (hblob : cache_pass C P = some blob)
    (hne : qpw ≠ code₀) :
    try_load_pass C (some blob) qpw = (LoadOutcome.nothing, none) ∧
    ∀ qpw2 : List Char, try_load_pass C none qpw2 = (LoadOutcome.nothing, none) := by
  have hb : blob = C.dump (utf8Encode code₀) (utf8Encode P) := by
    rw [cache_pass, show last_n_chars P 3 = some code₀ from hcode, Option.map_some'] at hblob
    exact (Option.some_inj.mp hblob).symm
  subst hb
  constructor
  · have hk : utf8Encode qpw ≠ utf8Encode code₀ := fun h => hne (utf8Encode_injective h)
    simp only [try_load_pass, hC.parse_wrong_key _ _ _ hk]
  · intro qpw2
    rfl

/-- Witness for C1: cache for "abcd" (code "bcd"), wrong guess "xxx". -/
theorem try_load_pass_wrong_code_destroys_witness :
    try_load_pass demoCodec
      (some (demoCodec.dump (utf8Encode "bcd".data) (utf8Encode "abcd".data))) "xxx".data =
      (LoadOutcome.nothing, none) :=
  (try_load_pass_wrong_code_destroys demoCodec demoCodec_ok "abcd".data "bcd".data "xxx".data
    (demoCodec.dump (utf8Encode "bcd".data) (utf8Encode "abcd".data))
    (by decide) (by decide) (by decide)).1

/-- C2: for a passphrase of at least 3 scalar values, `cache_pass`
stores the codec blob of the passphrase under the derived code, and
decrypting that stored cache under the derived code (the success branch
of `try_load_pass`) yields exactly the passphrase, under the assumed
codec contract. -/
theorem cache_roundtrip (C : Codec) (hC : CodecOK C) (P : List Char) (h3 : 3 ≤ P.length) :
    cache_pass C P = some (C.dump (utf8Encode (P.drop (P.length - 3))) (utf8Encode P)) ∧
    try_load_pass C (some (C.dump (utf8Encode (P.drop (P.length - 3))) (utf8Encode P)))
      (P.drop (P.length - 3)) =
      (LoadOutcome.found P,
        some (C.dump (utf8Encode (P.drop (P.length - 3))) (utf8Encode P))) := by
  have hcode : last_n_chars P 3 = some (P.drop (P.length - 3)) := by
    rw [last_n_chars, if_pos ⟨by omega, h3⟩]
  constructor
  · rw [cache_pass, hcode, Option.map_some']
  · simp only [try_load_pass, hC.parse_dump, utf8Decode_utf8Encode]

/-- Witness for C2 at the passphrase "abcd" with derived code "bcd". -/
theorem cache_roundtrip_witness :
    cache_pass demoCodec "abcd".data =
      some (demoCodec.dump (utf8Encode "bcd".data) (utf8Encode "abcd".data)) ∧
    try_load_pass demoCodec
      (some (demoCodec.dump (utf8Encode "bcd".data) (utf8Encode "abcd".data))) "bcd".data =
      (LoadOutcome.found "abcd".data,
        some (demoCodec.dump (utf8Encode "bcd".data) (utf8Encode "abcd".data))) :=
  cache_roundtrip demoCodec demoCodec_ok "abcd".data (by decide)

/-! ## Claim about the transactional save -/

/-- C3: in `save_db`, a failure of the initial backup copy (no target to
read) aborts before anything else changes; when serialization to the
staging file fails, the target's bytes are unchanged and the backup
holds the target's pre-save bytes; and on success the target is
overwritten exactly with the fully-written staging file's contents. -/
theorem save_db_transactional (fs : FsState) (ser : Option (List Nat)) :
    (fs.target = none → save_db fs ser = (false, fs)) ∧
    (∀ t, fs.target = some t → ser = none →
      (save_db fs ser).1 = false ∧
      (save_db fs ser).2.target = some t ∧
      (save_db fs ser).2.backup = some t) ∧
    (∀ t bs, fs.target = some t → ser = some bs →
      save_db fs ser =
        (true, FsState.mk (some bs) (some t) (some bs))) := by
  refine ⟨?_, ?_, ?_⟩
  · intro h
    simp [save_db, h]
  · intro t ht hs
    simp [save_db, ht, hs]
  · intro t bs ht hs
    obtain ⟨tg, bk, st⟩ := fs
    simp only at ht
    subst ht hs
    simp [save_db]

/-- Witness for C3: a successful save publishes the serialized bytes and
keeps the pre-save target in the backup. -/
theorem save_db_transactional_witness :
    save_db (FsState.mk (some [1, 2]) (some [9]) none) (some [7, 7]) =
      (true, FsState.mk (some [7, 7]) (some [1, 2]) (some [7, 7])) :=
  (save_db_transactional (FsState.mk (some [1, 2]) (some [9]) none) (some [7, 7])).2.2
    [1, 2] [7, 7] rfl rfl

/-! ## Claim about the unlock flows of `main` -/

/-- C6: when the vault key comes from a quick-unlock cache hit, an open
failure is fatal and process-terminating, with no retry and no prompt
consumed; in the full-passphrase flow, each failed open prints the
diagnostic and the underlying error and the loop continues unbounded —
after any number of wrong passphrases, the first correct one unlocks
(and caches). -/
theorem unlock_error_handling (C : Codec) (openDb : List Char → Except String Unit)
    (cache : Option (List Nat)) :
    (∀ qpw prompts p c' err, try_load_pass C cache qpw = (LoadOutcome.found p, c') →
      openDb p = Except.error err →
      unlock_main C openDb cache qpw prompts = (UnlockResult.fatal [], c')) ∧
    (∀ ws g err blob, (∀ w ∈ ws, openDb w = Except.error (err w)) →
      openDb g = Except.ok () → cache_pass C g = some blob →
      passphrase_loop C openDb cache (ws ++ [g]) =
        (UnlockResult.unlocked g (err_log err ws), some blob)) := by
  constructor
  · intro qpw prompts p c' err h1 h2
    simp only [unlock_main, h1, h2]
  · intro ws g err blob
    induction ws with
    | nil =>
      intro hws hg hb
      simp [passphrase_loop, hg, hb, err_log]
    | cons w ws ih =>
      intro hws hg hb
      have hw : openDb w = Except.error (err w) := hws w (List.mem_cons_self w ws)
      have hws' : ∀ w' ∈ ws, openDb w' = Except.error (err w') :=
        fun w' hw' => hws w' (List.mem_cons_of_mem w hw')
      rw [List.cons_append]
      simp only [passphrase_loop, hw]
      rw [ih hws' hg hb]
      simp [with_log, err_log]

/-- Witness for C6: one wrong passphrase then the correct one; the loop
prints both diagnostic lines for the failure and unlocks on "good". -/
theorem unlock_error_handling_witness :
    passphrase_loop demoCodec
      (fun p => if p = "good".data then Except.ok () else Except.error "bad key") none
      (["aa".data] ++ ["good".data]) =
      (UnlockResult.unlocked "good".data (err_log (fun _ => "bad key") ["aa".data]),
        some (demoCodec.dump (utf8Encode "ood".data) (utf8Encode "good".data))) :=
  (unlock_error_handling demoCodec
    (fun p => if p = "good".data then Except.ok () else Except.error "bad key") none).2
    ["aa".data] "good".data (fun _ => "bad key")
    (demoCodec.dump (utf8Encode "ood".data) (utf8Encode "good".data))
    (by
      intro w hw
      rw [List.mem_singleton] at hw
      subst hw
      rfl)
    rfl rfl

/-! ## Claim about `view_entry` and protected values -/

/-- C5 counterexample: the Notes field is stored `Protected` by
`set_notes`, yet `view_entry` writes its value ("secret") to standard
output, so "viewing an entry never writes a Protected field value to
standard output" is false on the code. -/
theorem view_entry_prints_protected_notes :
    get_field (set_notes (KEntry.mk 0 []) "secret") "Notes" =
      some (Value.protected_ (utf8Encode "secret".data)) ∧
    (view_entry (set_notes (KEntry.mk 0 []) "secret")).1 =
      ["-- Notes ----------------", "secret", "-------------------------"] := by
  constructor
  · rfl
  · rfl

/-- C5 as amended: `view_entry` does write the (Protected) Notes value
to standard output, but never the Password value — the printed lines are
unchanged by any change of the Password field, the password being passed
only to the clipboard. -/
theorem view_entry_password_never_printed (e : KEntry) (b1 b2 : List Nat) (s : String)
    (h1 : (utf8Decode b1).isSome = true) (h2 : (utf8Decode b2).isSome = true) :
    (view_entry (insert_field e "Password" (Value.protected_ b1))).1 =
      (view_entry (insert_field e "Password" (Value.protected_ b2))).1 ∧
    get_field (set_notes e s) "Notes" = some (Value.protected_ (utf8Encode s.data)) ∧
    s ∈ (view_entry (set_notes e s)).1 := by
  refine ⟨?_, ?_, ?_⟩
  · have hU : ∀ b, get_username (insert_field e "Password" (Value.protected_ b)) =
        get_username e := by
      intro b
      unfold get_username entry_get
      rw [get_field_insert, if_neg (by decide)]
    have hUrl : ∀ b, get_url (insert_field e "Password" (Value.protected_ b)) =
        get_url e := by
      intro b
      unfold get_url entry_get
      rw [get_field_insert, if_neg (by decide)]
    have hN : ∀ b, entry_notes (insert_field e "Password" (Value.protected_ b)) =
        entry_notes e := by
      intro b
      unfold entry_notes
      rw [get_field_insert, if_neg (by decide)]
    have hP : ∀ b, get_password (insert_field e "Password" (Value.protected_ b)) =
        (utf8Decode b).map List.asString := by
      intro b
      unfold get_password entry_get
      rw [get_field_insert, if_pos rfl]
    obtain ⟨c1, hc1⟩ := Option.isSome_iff_exists.mp h1
    obtain ⟨c2, hc2⟩ := Option.isSome_iff_exists.mp h2
    simp only [view_entry, hU, hUrl, hN, hP, hc1, hc2, Option.map_some']
  · rw [set_notes, get_field_insert, if_pos rfl]
  · have hn : entry_notes (set_notes e s) = some s := by
      unfold entry_notes set_notes
      rw [get_field_insert, if_pos rfl]
      show Option.map List.asString (utf8Decode (utf8Encode s.data)) = some s
      rw [utf8Decode_utf8Encode, Option.map_some', asString_data]
    simp only [view_entry, hn]
    simp [List.mem_append]

/-- Witness for the amended C5: concrete passwords "aa"/"bb" leave the
printed lines identical, and the note text "note" is printed. -/
theorem view_entry_password_never_printed_witness :
    (view_entry (insert_field (KEntry.mk 5 []) "Password"
        (Value.protected_ (utf8Encode "aa".data)))).1 =
      (view_entry (insert_field (KEntry.mk 5 []) "Password"
        (Value.protected_ (utf8Encode "bb".data)))).1 ∧
    get_field (set_notes (KEntry.mk 5 []) "note") "Notes" =
      some (Value.protected_ (utf8Encode "note".data)) ∧
    "note" ∈ (view_entry (set_notes (KEntry.mk 5 []) "note")).1 :=
  view_entry_password_never_printed (KEntry.mk 5 []) (utf8Encode "aa".data)
    (utf8Encode "bb".data) "note" (by decide) (by decide)

end KPass
